import Mathlib

/-!
Shallow embedding of the simple-ftp client/server core (commands.c, io.c,
util.c, mftp.c, mftpserve.c) together with proofs about the claims of its
specification.  C strings are modelled as lists of characters holding the
bytes before the NUL terminator; a file descriptor's incoming byte stream
is an explicit list, and a write target accumulates the bytes written to
it.  Results of C library calls that can fail are passed in as boolean
parameters where the surrounding code only branches on success/failure.
-/

namespace Mftp

/-- NUL byte, the C string terminator. -/
def NUL : Char := Char.ofNat 0

/-- EXIT_SUCCESS of stdlib.h, as the C int the functions return. -/
def EXIT_SUCCESS : Int := 0

/-- EXIT_FAILURE of stdlib.h. -/
def EXIT_FAILURE : Int := 1

/-- RSP_ACK of commands.h. -/
def RSP_ACK : Char := 'A'

/-- RSP_ERR of commands.h. -/
def RSP_ERR : Char := 'E'

/-- enum cmd_type of commands.h. -/
inductive CmdType
  | CMD_EXIT
  | CMD_CD
  | CMD_RCD
  | CMD_LS
  | CMD_RLS
  | CMD_GET
  | CMD_SHOW
  | CMD_PUT
  | CMD_DATA
  | CMD_INVALID
deriving DecidableEq, Repr, Fintype

open CmdType

/-- Numeric value of the enum constant: C assigns 0..8 explicitly and the
unnumbered CMD_INVALID becomes 9.  This is the index used when the enum
value subscripts info_table. -/
def tableIdx : CmdType → Nat
  | CMD_EXIT => 0
  | CMD_CD => 1
  | CMD_RCD => 2
  | CMD_LS => 3
  | CMD_RLS => 4
  | CMD_GET => 5
  | CMD_SHOW => 6
  | CMD_PUT => 7
  | CMD_DATA => 8
  | CMD_INVALID => 9

/-- struct cmd_info of commands.c.  A field without an initializer in the
C designated initializer is zero, hence ctl = NUL for the local commands. -/
structure CmdInfo where
  name : Option (List Char)
  has_arg : Bool
  is_remote : Bool
  needs_data : Bool
  ctl : Char
deriving DecidableEq, Repr

/-- info_table of commands.c: the nine defined entries, indices 0..8. -/
def info_table : List CmdInfo :=
  [ ⟨some ['e', 'x', 'i', 't'], false, true, false, 'Q'⟩,
    ⟨some ['c', 'd'], true, false, false, NUL⟩,
    ⟨some ['r', 'c', 'd'], true, true, false, 'C'⟩,
    ⟨some ['l', 's'], false, false, false, NUL⟩,
    ⟨some ['r', 'l', 's'], false, true, true, 'L'⟩,
    ⟨some ['g', 'e', 't'], true, true, true, 'G'⟩,
    ⟨some ['s', 'h', 'o', 'w'], true, true, true, 'G'⟩,
    ⟨some ['p', 'u', 't'], true, true, true, 'P'⟩,
    ⟨none, false, true, false, 'D'⟩ ]

/-- Total lookup helper for the in-bounds enum values (0..8); the default is
never reached for them.  cmd_parse performs its raw subscript separately,
see cmd_parse_table_index. -/
def infoOf (cmd : CmdType) : CmdInfo :=
  (info_table.get? (tableIdx cmd)).getD ⟨none, false, false, false, NUL⟩

/-- cmd_get_name of commands.c. -/
def cmd_get_name (cmd : CmdType) : Option (List Char) :=
  if cmd = CMD_INVALID then none else (infoOf cmd).name

/-- cmd_is_remote of commands.c. -/
def cmd_is_remote (cmd : CmdType) : Bool :=
  if cmd = CMD_INVALID then false else (infoOf cmd).is_remote

/-- cmd_needs_data of commands.c. -/
def cmd_needs_data (cmd : CmdType) : Bool :=
  if !(cmd_is_remote cmd) then false else (infoOf cmd).needs_data

/-- cmd_get_ctl of commands.c: the control character promoted to int, or -1
for a command with no control character. -/
def cmd_get_ctl (cmd : CmdType) : Int :=
  if !(cmd_is_remote cmd) then -1 else ((infoOf cmd).ctl.toNat : Int)

/-- cmd_get_type of commands.c: reverse lookup from a wire code character,
comparing the promoted character against each control value in turn. -/
def cmd_get_type (ctl : Char) : CmdType :=
  if (ctl.toNat : Int) = cmd_get_ctl CMD_EXIT then CMD_EXIT
  else if (ctl.toNat : Int) = cmd_get_ctl CMD_RCD then CMD_RCD
  else if (ctl.toNat : Int) = cmd_get_ctl CMD_RLS then CMD_RLS
  else if (ctl.toNat : Int) = cmd_get_ctl CMD_GET then CMD_GET
  else if (ctl.toNat : Int) = cmd_get_ctl CMD_SHOW then CMD_SHOW
  else if (ctl.toNat : Int) = cmd_get_ctl CMD_PUT then CMD_PUT
  else if (ctl.toNat : Int) = cmd_get_ctl CMD_DATA then CMD_DATA
  else CMD_INVALID

/-- isspace of ctype.h in the default locale. -/
def c_isspace (c : Char) : Bool :=
  c == ' ' || c == '\t' || c == '\n' || c == '\x0b' || c == '\x0c' || c == '\r'

/-- is_not_space of util.c. -/
def is_not_space (c : Char) : Bool := !(c_isspace c)

/-- is_newline of util.c. -/
def is_newline (c : Char) : Bool := c == '\n'

/-- count_chars of util.c: leading characters passing the predicate; the C
loop also stops at the NUL terminator, kept here for fidelity although the
list model carries no interior NUL. -/
def count_chars (test : Char → Bool) : List Char → Nat
  | [] => 0
  | c :: rest => if test c = true ∧ c ≠ NUL then count_chars test rest + 1 else 0

/-- word_length of util.c. -/
def word_length (s : List Char) : Nat := count_chars is_not_space s

/-- space_length of util.c. -/
def space_length (s : List Char) : Nat := count_chars c_isspace s

/-- msg_is_cmd of commands.c: the first word of msg equals the command
name (commands without a human-readable name never match). -/
def msg_is_cmd (msg : List Char) (cmd : CmdType) : Bool :=
  match cmd_get_name cmd with
  | none => false
  | some nm => word_length msg == nm.length && msg.take nm.length == nm

/-- The if-else chain of cmd_parse that selects the command kind. -/
def cmd_parse_type (msg : List Char) : CmdType :=
  if msg_is_cmd msg CMD_EXIT then CMD_EXIT
  else if msg_is_cmd msg CMD_CD then CMD_CD
  else if msg_is_cmd msg CMD_RCD then CMD_RCD
  else if msg_is_cmd msg CMD_LS then CMD_LS
  else if msg_is_cmd msg CMD_RLS then CMD_RLS
  else if msg_is_cmd msg CMD_GET then CMD_GET
  else if msg_is_cmd msg CMD_SHOW then CMD_SHOW
  else if msg_is_cmd msg CMD_PUT then CMD_PUT
  else CMD_INVALID

/-- Offset of the argument inside the message: past the first word and the
following whitespace (cmd_parse lines 177-178). -/
def arg_start (msg : List Char) : Nat :=
  word_length msg + space_length (msg.drop (word_length msg))

/-- The argument text the parser points at. -/
def arg_of (msg : List Char) : List Char := msg.drop (arg_start msg)

/-- The index with which cmd_parse subscripts info_table at line 203:
the numeric value of the matched type, 9 when nothing matched. -/
def cmd_parse_table_index (msg : List Char) : Nat := tableIdx (cmd_parse_type msg)

/-- struct command of commands.h: kind plus optional argument text. -/
structure Command where
  type : CmdType
  arg : Option (List Char)
deriving DecidableEq, Repr

/-- cmd_parse of commands.c.  The needs-arg bit is fetched by subscripting
info_table with the matched type before the validity test; the subscript
is modelled with get? so the out-of-bounds read at index 9 surfaces as
none (the fetched bit is then irrelevant to the result, as in the C,
because the validity test requires a non-INVALID type). -/
def cmd_parse (msg : List Char) : Command :=
  let argl := arg_of msg
  let arg : Option (List Char) := if argl = [] then none else some argl
  let ty := cmd_parse_type msg
  let has_arg : Bool := !argl.isEmpty
  let needs_arg : Bool :=
    (info_table.get? (cmd_parse_table_index msg)).elim false CmdInfo.has_arg
  if ty ≠ CMD_INVALID ∧ needs_arg ≠ has_arg then ⟨CMD_INVALID, arg⟩ else ⟨ty, arg⟩

/-- State left behind by read_until of io.c: the unconsumed input stream,
the buffer contents (an unbounded memory so that out-of-bounds writes
would be observable), and the final value of the remaining counter. -/
structure ReadRes where
  rest : List Char
  buf : Nat → Char
  remaining : Nat

/-- Pointwise store to the buffer memory. -/
def updateBuf (buf : Nat → Char) (i : Nat) (c : Char) : Nat → Char :=
  fun j => if j = i then c else buf j

/-- The loop of read_until (io.c lines 73-83): reads one byte at a time
while remaining is positive and the stream is not at EOF; a byte passing
char_is_end is overwritten with NUL and the loop breaks without advancing
the cursor or decrementing remaining. -/
def readUntilGo (char_is_end : Char → Bool) (input : List Char)
    (buf : Nat → Char) (pos r : Nat) : ReadRes :=
  match r, input with
  | 0, inp => ⟨inp, buf, 0⟩
  | r1 + 1, [] => ⟨[], buf, r1 + 1⟩
  | r1 + 1, c :: rest =>
      let buf1 := updateBuf buf pos c
      if char_is_end c then ⟨rest, updateBuf buf1 pos NUL, r1 + 1⟩
      else readUntilGo char_is_end rest buf1 (pos + 1) r1

/-- read_until of io.c: rejects a non-positive buffer size with -1/EINVAL,
otherwise runs the loop with remaining = buf_size - 1 and returns
buf_size - remaining - 1. -/
def read_until (input : List Char) (buf : Nat → Char) (buf_size : Int)
    (char_is_end : Char → Bool) : Int × ReadRes :=
  if buf_size ≤ 0 then (-1, ⟨input, buf, 0⟩)
  else
    let res := readUntilGo char_is_end input buf 0 (buf_size - 1).toNat
    (buf_size - (res.remaining : Int) - 1, res)

/-- read_line of io.c. -/
def read_line (input : List Char) (buf : Nat → Char) (buf_size : Int) :
    Int × ReadRes :=
  read_until input buf buf_size is_newline

/-- BUFSIZ of stdio.h on the target platform (glibc on Linux). -/
def BUFSIZ : Nat := 8192

/-- One read_all call of the send_file loop (io.c line 159): the buffer is
char buf of BUFSIZ + 1 bytes, zeroed, and sizeof(buf) - 1 = BUFSIZ is
passed as buf_size, so at most BUFSIZ - 1 payload bytes are consumed. -/
def send_file_step (src : List Char) : ReadRes :=
  readUntilGo (fun _ => false) src (fun _ => NUL) 0 (BUFSIZ - 1)

/-- The send_file loop of io.c, with fuel bounding the iteration count
(each iteration consumes at least one byte of a non-empty source, so
src.length fuel always suffices).  Each iteration reads a chunk into the
buffer and write_buf appends exactly the prev_bytes bytes of the buffer
to the destination. -/
def send_file_fuel : Nat → List Char → List Char → List Char
  | 0, dest, _ => dest
  | fuel + 1, dest, src =>
      if src.isEmpty then dest
      else
        let res := send_file_step src
        let m := (BUFSIZ - 1) - res.remaining
        send_file_fuel fuel (dest ++ (List.range m).map res.buf) res.rest

/-- send_file of io.c on an error-free run: dest accumulates the bytes
written to dest_fd. -/
def send_file (dest src : List Char) : List Char :=
  send_file_fuel src.length dest src

/-- Return value of send_command (mftp.c): EXIT_SUCCESS when the dprintf
succeeded, EXIT_FAILURE otherwise; the function never returns -1. -/
def send_command_result (writeOk : Bool) : Int :=
  if writeOk then EXIT_SUCCESS else EXIT_FAILURE

/-- Observable outcome of setup_data_conn (mftp.c): whether the real
command line went out on the control socket, and the data socket handed
back to the caller (none encodes the -1 failure return). -/
structure SetupResult where
  sentRealCmd : Bool
  dataSock : Option Unit
deriving DecidableEq, Repr

/-- setup_data_conn of mftp.c.  putOk is the test_put_path verdict, initOk
whether init_data_sock produced a socket, sendOk whether the dprintf of
send_command succeeded, rspOk the check_data_response verdict.  Line 358
tests send_command(...) != -1, faithfully reproduced. -/
def setup_data_conn (putOk initOk sendOk rspOk : Bool) (cmd : CmdType) :
    SetupResult :=
  if cmd = CMD_PUT ∧ putOk = false then ⟨false, none⟩
  else if initOk = false then ⟨false, none⟩
  else if send_command_result sendOk ≠ -1 then ⟨true, none⟩
  else if rspOk = false then ⟨true, none⟩
  else ⟨true, some ()⟩

/-- Local transfer step the client dispatcher performs per command kind. -/
inductive ClientAction
  | paged
  | receivedFile
  | sentFile
deriving DecidableEq, Repr

/-- The switch of handle_data_cmd (mftp.c lines 392-406). -/
def client_action_for : CmdType → Option ClientAction
  | CMD_RLS => some ClientAction.paged
  | CMD_SHOW => some ClientAction.paged
  | CMD_GET => some ClientAction.receivedFile
  | CMD_PUT => some ClientAction.sentFile
  | _ => none

/-- handle_data_cmd of mftp.c: its return status together with the local
transfer it performed, if any.  transferOk is the outcome of the
page_fd / receive_path / send_path call in the switch. -/
def handle_data_cmd_client (putOk initOk sendOk rspOk transferOk : Bool)
    (cmd : CmdType) : Int × Option ClientAction :=
  match (setup_data_conn putOk initOk sendOk rspOk cmd).dataSock with
  | none => (EXIT_FAILURE, none)
  | some _ =>
      match client_action_for cmd with
      | none => (EXIT_FAILURE, none)
      | some a => (if transferOk then EXIT_SUCCESS else EXIT_FAILURE, some a)

/-- Outcome of handle_remote_cmd (mftp.c): either the process exited via
cmd_exit, or the function returned a status, recording whether the
server's error text was printed on the way out. -/
inductive RemoteOutcome
  | exited (status : Int)
  | ret (status : Int) (printedServerError : Bool)
deriving DecidableEq, Repr

/-- handle_remote_cmd of mftp.c on an error-free send/read: rsp is the
response line with the newline stripped, [] encoding EOF.  The C checks
EOF, then exits on CMD_EXIT, and only then tests for a server error. -/
def handle_remote_cmd (cmd : CmdType) (rsp : List Char) : RemoteOutcome :=
  if rsp = [] then RemoteOutcome.ret EXIT_FAILURE false
  else if cmd = CMD_EXIT then RemoteOutcome.exited 0
  else if rsp.headD NUL = RSP_ERR then RemoteOutcome.ret EXIT_FAILURE true
  else RemoteOutcome.ret EXIT_SUCCESS false

/-- Observable I/O events of the server while handling one data-bearing
command: a transfer written to the data handle, a response written to the
control socket (ack or err), or bytes read from the data handle. -/
inductive SrvEvent
  | transferToData
  | respond (isAck : Bool)
  | readFromData
deriving DecidableEq, Repr

/-- handle_put_cmd of mftpserve.c: open the destination, respond with the
open's verdict, and only on success read the data handle into the file. -/
def handle_put_cmd_srv (openOk : Bool) : List SrvEvent :=
  SrvEvent.respond openOk :: (if openOk then [SrvEvent.readFromData] else [])

/-- handle_data_cmd of mftpserve.c as its event trace.  dataPresent is
whether a data handle is installed, localOk the verdict of the local step
(cmd_ls / send_path / open). -/
def handle_data_cmd_srv (dataPresent : Bool) (cmd : CmdType) (localOk : Bool) :
    List SrvEvent :=
  if dataPresent = false then [SrvEvent.respond false]
  else if cmd = CMD_PUT then handle_put_cmd_srv localOk
  else
    match cmd with
    | CMD_RLS => [SrvEvent.transferToData, SrvEvent.respond localOk]
    | CMD_GET => [SrvEvent.transferToData, SrvEvent.respond localOk]
    | CMD_SHOW => [SrvEvent.transferToData, SrvEvent.respond localOk]
    | _ => []

/-- Per-connection server state: whether the data_sock variable holds a
socket, and how many open data sockets the process holds (so that a leak
would be visible as held > 1). -/
structure SState where
  present : Bool
  held : Nat
deriving DecidableEq, Repr

/-- Result of one trip through process_command: a next state, process exit
(CMD_EXIT), or an assertion failure (the assert at mftpserve.c line 216). -/
inductive StepRes
  | ok (s : SState)
  | exited
  | aborted
deriving DecidableEq, Repr

/-- handle_local_cmd of mftpserve.c as a state transformer.  initDataOk is
whether init_data produced a data socket. -/
def handle_local_cmd_state (s : SState) (cmd : CmdType) (initDataOk : Bool) :
    StepRes :=
  match cmd with
  | CMD_EXIT => StepRes.exited
  | CMD_DATA =>
      if s.present then StepRes.aborted
      else if initDataOk then StepRes.ok ⟨true, s.held + 1⟩
      else StepRes.ok ⟨false, s.held⟩
  | _ => StepRes.ok s

/-- process_command of mftpserve.c as a state transformer: data-bearing
commands run handle_data_cmd and then unconditionally close the data
socket and reset it to -1 (lines 350-351). -/
def process_command_state (s : SState) (cmd : CmdType) (initDataOk : Bool) :
    StepRes :=
  if cmd = CMD_INVALID then StepRes.ok s
  else if !(cmd_needs_data cmd) then handle_local_cmd_state s cmd initDataOk
  else StepRes.ok ⟨false, s.held - (if s.present then 1 else 0)⟩

/-- States of the per-connection loop reachable from the initial state
data_sock = -1 (handle_connection, mftpserve.c line 367). -/
inductive Reachable : SState → Prop
  | init : Reachable ⟨false, 0⟩
  | step {s s1 : SState} {cmd : CmdType} {b : Bool} : Reachable s →
      process_command_state s cmd b = StepRes.ok s1 → Reachable s1

/-- Buffer contents after the POSIX basename(3) call mutated the copy:
trailing slashes are overwritten with NUL, the first byte always kept
(glibc and musl behaviour for the libgen.h basename). -/
def basename_buf : List Char → List Char
  | [] => []
  | c :: rest => c :: (rest.reverse.dropWhile (fun x => x = '/')).reverse

/-- Return value of POSIX basename(3): the suffix of the stripped buffer
after its last slash, the whole stripped buffer when it has no non-slash
suffix, and "." for an empty argument. -/
def basename3 (s : List Char) : List Char :=
  if s = [] then ['.']
  else
    let buf := basename_buf s
    let suf := (buf.reverse.takeWhile (fun x => x ≠ '/')).reverse
    if suf = [] then buf else suf

/-- basename_of of util.c: compares the mutated copy with the base; when
they differ, returns the suffix of the original path whose length equals
the base's length. -/
def basename_of (path : List Char) : List Char :=
  let path_copy := basename_buf path
  let base := basename3 path
  if path_copy = base then path
  else path.drop (path.length - base.length)

/-- C7: for every wire code c in Q, C, L, G, P, D, applying kind-from-code
(cmd_get_type) and then code-from-kind (cmd_get_ctl) yields c again. -/
theorem c7_ctl_roundtrip :
    cmd_get_ctl (cmd_get_type 'Q') = (('Q').toNat : Int)
  ∧ cmd_get_ctl (cmd_get_type 'C') = (('C').toNat : Int)
  ∧ cmd_get_ctl (cmd_get_type 'L') = (('L').toNat : Int)
  ∧ cmd_get_ctl (cmd_get_type 'G') = (('G').toNat : Int)
  ∧ cmd_get_ctl (cmd_get_type 'P') = (('P').toNat : Int)
  ∧ cmd_get_ctl (cmd_get_type 'D') = (('D').toNat : Int) := by decide

/-- C1 (code bug evidence): because send_command returns EXIT_SUCCESS or
EXIT_FAILURE and never -1, the test at mftp.c line 358 always takes the
error branch, so setup_data_conn always returns -1 and handle_data_cmd
always fails without performing a local transfer — even when every
precondition holds and the real command was sent (the concrete conjuncts
evaluate the code at the failing input: a get command with a successful
handshake). -/
theorem c1_client_data_path_always_fails :
    (∀ putOk initOk sendOk rspOk transferOk : Bool, ∀ cmd : CmdType,
        handle_data_cmd_client putOk initOk sendOk rspOk transferOk cmd =
          (EXIT_FAILURE, none))
  ∧ (setup_data_conn true true true true CMD_GET).sentRealCmd = true
  ∧ (setup_data_conn true true true true CMD_GET).dataSock = none
  ∧ send_command_result true ≠ -1
  ∧ send_command_result false ≠ -1 := by decide

/-- C2: with a data handle installed, the server writes the control
response after the data transfer for RLS, GET, SHOW, and for PUT it
writes the response (ack or err) before any byte is read from the data
handle: the event traces are exactly these. -/
theorem c2_server_response_timing :
    (∀ ok : Bool, handle_data_cmd_srv true CMD_RLS ok =
        [SrvEvent.transferToData, SrvEvent.respond ok])
  ∧ (∀ ok : Bool, handle_data_cmd_srv true CMD_GET ok =
        [SrvEvent.transferToData, SrvEvent.respond ok])
  ∧ (∀ ok : Bool, handle_data_cmd_srv true CMD_SHOW ok =
        [SrvEvent.transferToData, SrvEvent.respond ok])
  ∧ (∀ ok : Bool, handle_data_cmd_srv true CMD_PUT ok =
        SrvEvent.respond ok :: (if ok then [SrvEvent.readFromData] else [])) := by
  decide

/-- C8 (counterexample): on an exit command the client exits with success
as soon as any non-EOF response arrives, even a server error response —
the response need not be an ack, refuting the claim as stated. -/
theorem c8_counterexample :
    handle_remote_cmd CMD_EXIT ['E', 'x'] = RemoteOutcome.exited 0
  ∧ (['E', 'x'].headD NUL ≠ RSP_ACK) := by decide

/-- C8 (amended): in the remote-no-data path, an error response makes a
non-exit command print the server's error text and fail; on an exit
command the client terminates with success upon any non-EOF response,
because the CMD_EXIT check precedes the server-error check. -/
theorem c8_remote_amended (cmd : CmdType) (rsp : List Char) :
    (cmd ≠ CMD_EXIT → rsp ≠ [] → rsp.headD NUL = RSP_ERR →
        handle_remote_cmd cmd rsp = RemoteOutcome.ret EXIT_FAILURE true)
  ∧ (rsp ≠ [] → handle_remote_cmd CMD_EXIT rsp = RemoteOutcome.exited 0) := by
  constructor
  · intro hne hrsp herr
    simp only [handle_remote_cmd, if_neg hrsp, if_neg hne, herr, if_pos rfl]
    exact if_pos trivial
  · intro hrsp
    simp only [handle_remote_cmd, if_neg hrsp, if_pos rfl]
    exact if_pos trivial

/-- C8 witness: the amended theorem applied at the concrete response Ez
for rcd and for exit. -/
theorem c8_remote_amended_witness :
    handle_remote_cmd CMD_RCD ['E', 'z'] = RemoteOutcome.ret EXIT_FAILURE true
  ∧ handle_remote_cmd CMD_EXIT ['E', 'z'] = RemoteOutcome.exited 0 :=
  ⟨(c8_remote_amended CMD_RCD ['E', 'z']).1 (by decide) (by decide) (by decide),
   (c8_remote_amended CMD_EXIT ['E', 'z']).2 (by decide)⟩

/-- C9 (code bug evidence): on an input matching no command name,
cmd_parse subscripts info_table with CMD_INVALID = 9, one past the last
defined entry 8, so the argument-bit lookup at commands.c line 203 reads
out of bounds. -/
theorem c9_oob_table_read :
    cmd_parse_table_index ['f', 'o', 'o'] = 9
  ∧ info_table.length = 9
  ∧ info_table.get? (cmd_parse_table_index ['f', 'o', 'o']) = none
  ∧ (cmd_parse ['f', 'o', 'o']).type = CMD_INVALID := by decide

/-- C10 (code bug evidence): for a path with a trailing slash the offset
arithmetic of basename_of runs after basename(3) stripped the slash, so
basename_of of a/b/ is the suffix "/" instead of the final component "b"
(and abc/ is returned whole rather than as abc); paths without a trailing
slash behave as documented. -/
theorem c10_basename_trailing_slash :
    basename_of ['a', '/', 'b', '/'] = ['/']
  ∧ basename3 ['a', '/', 'b', '/'] = ['b']
  ∧ basename_of ['a', '/', 'b', '/'] ≠ ['b']
  ∧ basename_of ['a', 'b', 'c', '/'] = ['a', 'b', 'c', '/']
  ∧ basename_of ['a', '/', 'b', '/', 'c'] = ['c']
  ∧ basename_of ['a', 'b', 'c'] = ['a', 'b', 'c'] := by decide

/-- C4 (counterexample): the line "exit x" is a valid command name, then
whitespace, then argument text, yet cmd_parse yields CMD_INVALID rather
than the matched command's kind, because exit's argument bit is unset. -/
theorem c4_counterexample :
    cmd_parse (['e', 'x', 'i', 't'] ++ [' '] ++ ['x']) =
      ⟨CMD_INVALID, some ['x']⟩
  ∧ (⟨CMD_INVALID, some ['x']⟩ : Command) ≠ ⟨CMD_EXIT, some ['x']⟩ := by decide

/-- C5 (counterexample): read_line writes no terminator on the EOF path;
with a buffer previously holding x everywhere, reading the two-byte
stream ab into a buffer of capacity 4 returns 2 but leaves buffer cell 2
equal to x, not NUL. -/
theorem c5_counterexample :
    (read_line ['a', 'b'] (fun _ => 'x') 4).1 = 2
  ∧ (read_line ['a', 'b'] (fun _ => 'x') 4).2.buf 2 = 'x'
  ∧ ('x' : Char) ≠ NUL := by decide

/-- Helper: in every reachable per-connection state, the number of open
data sockets held matches the data_sock variable exactly. -/
theorem reachable_held_eq (s : SState) (h : Reachable s) :
    s.held = (if s.present then 1 else 0) := by
  induction h with
  | init => rfl
  | @step s0 s1 cmd b hr hstep ih =>
    cases cmd
    case CMD_EXIT =>
      simp +decide [process_command_state, handle_local_cmd_state] at hstep
    case CMD_CD =>
      simp +decide [process_command_state, handle_local_cmd_state] at hstep
      simp [← hstep, ih]
    case CMD_LS =>
      simp +decide [process_command_state, handle_local_cmd_state] at hstep
      simp [← hstep, ih]
    case CMD_RCD =>
      simp +decide [process_command_state, handle_local_cmd_state] at hstep
      simp [← hstep, ih]
    case CMD_INVALID =>
      simp +decide [process_command_state] at hstep
      simp [← hstep, ih]
    case CMD_DATA =>
      by_cases hp : s0.present
      · simp +decide [process_command_state, handle_local_cmd_state, hp] at hstep
      · cases b <;>
          simp +decide [process_command_state, handle_local_cmd_state, hp]
            at hstep <;>
          simp [← hstep, ih, hp]
    all_goals
      simp +decide [process_command_state] at hstep
      by_cases hp : s0.present <;> simp [hp] at ih <;> simp [← hstep, ih, hp]

/-- C3: in every reachable state of the server per-connection loop at most
one data handle is held; immediately after processing any data-bearing
command the data handle is absent; immediately after a successful D
command it is present (a D while a handle is installed trips the
assertion instead of producing a state). -/
theorem c3_data_handle_invariant :
    (∀ s : SState, Reachable s → s.held ≤ 1)
  ∧ (∀ (s s1 : SState) (cmd : CmdType) (b : Bool),
        cmd_needs_data cmd = true →
        process_command_state s cmd b = StepRes.ok s1 → s1.present = false)
  ∧ (∀ s s1 : SState,
        process_command_state s CMD_DATA true = StepRes.ok s1 →
        s1.present = true) := by
  refine ⟨?_, ?_, ?_⟩
  · intro s h
    have hh := reachable_held_eq s h
    split at hh <;> omega
  · intro s s1 cmd b hnd hstep
    cases cmd <;> try exact absurd hnd (by decide)
    all_goals
      simp +decide [process_command_state] at hstep
      simp [← hstep]
  · intro s s1 hstep
    by_cases hp : s.present
    · simp +decide [process_command_state, handle_local_cmd_state, hp] at hstep
    · simp +decide [process_command_state, handle_local_cmd_state, hp] at hstep
      simp [← hstep]

/-- C3 witness: the invariant at the initial state, the absence of the
handle right after a get processed from the one-handle state, and the
presence right after a successful D from the initial state. -/
theorem c3_data_handle_invariant_witness :
    (⟨false, 0⟩ : SState).held ≤ 1
  ∧ SState.present ⟨false, 0⟩ = false
  ∧ SState.present ⟨true, 1⟩ = true :=
  ⟨c3_data_handle_invariant.1 ⟨false, 0⟩ Reachable.init,
   c3_data_handle_invariant.2.1 ⟨true, 1⟩ ⟨false, 0⟩ CMD_GET true (by decide)
     (by decide),
   c3_data_handle_invariant.2.2 ⟨false, 0⟩ ⟨true, 1⟩ (by decide)⟩

/-- Helper: the remaining counter never grows. -/
theorem readUntilGo_remaining_le (e : Char → Bool) :
    ∀ (r : Nat) (input : List Char) (buf : Nat → Char) (pos : Nat),
      (readUntilGo e input buf pos r).remaining ≤ r := by
  intro r
  induction r with
  | zero => intro input buf pos; cases input <;> simp [readUntilGo]
  | succ r1 ih =>
    intro input buf pos
    cases input with
    | nil => simp [readUntilGo]
    | cons c rest =>
      simp only [readUntilGo]
      split
      · simp
      · exact le_trans (ih rest _ (pos + 1)) (Nat.le_succ r1)

/-- Helper: the loop never writes at or past position pos + r. -/
theorem readUntilGo_frame_high (e : Char → Bool) :
    ∀ (r : Nat) (input : List Char) (buf : Nat → Char) (pos i : Nat),
      pos + r ≤ i → (readUntilGo e input buf pos r).buf i = buf i := by
  intro r
  induction r with
  | zero => intro input buf pos i _; cases input <;> simp [readUntilGo]
  | succ r1 ih =>
    intro input buf pos i hi
    have hne : i ≠ pos := by omega
    cases input with
    | nil => simp [readUntilGo]
    | cons c rest =>
      simp only [readUntilGo]
      split
      · simp [updateBuf, hne]
      · rw [ih rest _ (pos + 1) i (by omega)]
        simp [updateBuf, hne]

/-- Helper: the loop never writes below position pos. -/
theorem readUntilGo_frame_low (e : Char → Bool) :
    ∀ (r : Nat) (input : List Char) (buf : Nat → Char) (pos i : Nat),
      i < pos → (readUntilGo e input buf pos r).buf i = buf i := by
  intro r
  induction r with
  | zero => intro input buf pos i _; cases input <;> simp [readUntilGo]
  | succ r1 ih =>
    intro input buf pos i hi
    have hne : i ≠ pos := by omega
    cases input with
    | nil => simp [readUntilGo]
    | cons c rest =>
      simp only [readUntilGo]
      split
      · simp [updateBuf, hne]
      · rw [ih rest _ (pos + 1) i (by omega)]
        simp [updateBuf, hne]

/-- Helper: when the buffer is NUL from position pos on, the cell at the
returned byte count is NUL on every return path. -/
theorem readUntilGo_nul (e : Char → Bool) :
    ∀ (r : Nat) (input : List Char) (buf : Nat → Char) (pos : Nat),
      (∀ j, pos ≤ j → buf j = NUL) →
      (readUntilGo e input buf pos r).buf
        (pos + (r - (readUntilGo e input buf pos r).remaining)) = NUL := by
  intro r
  induction r with
  | zero =>
    intro input buf pos hz
    cases input <;> simpa [readUntilGo] using hz pos (le_refl pos)
  | succ r1 ih =>
    intro input buf pos hz
    cases input with
    | nil => simpa [readUntilGo] using hz pos (le_refl pos)
    | cons c rest =>
      simp only [readUntilGo]
      split
      · simp [updateBuf]
      · have hz1 : ∀ j, pos + 1 ≤ j → updateBuf buf pos c j = NUL := by
          intro j hj
          have : j ≠ pos := by omega
          simp [updateBuf, this]
          exact hz j (by omega)
        have hrem := readUntilGo_remaining_le e r1 rest (updateBuf buf pos c)
          (pos + 1)
        have hidx : pos + (r1 + 1 -
            (readUntilGo e rest (updateBuf buf pos c) (pos + 1) r1).remaining) =
            (pos + 1) + (r1 -
            (readUntilGo e rest (updateBuf buf pos c) (pos + 1) r1).remaining) := by
          omega
        rw [hidx]
        exact ih rest (updateBuf buf pos c) (pos + 1) hz1

/-- C5 (amended): for every byte stream and capacity N > 0, read_line
reads at most N - 1 payload bytes and its return value is in [0, N - 1];
it never writes at or past buffer index N - 1 (a fortiori never beyond
the buffer); and provided every buffer cell started as NUL — which holds
for every caller in the repository, all of which zero their buffers —
the buffer is NUL-terminated at the position given by the return value on
the newline, EOF, and truncation paths.  Without the zeroed-buffer
premise the termination clause fails, see the counterexample. -/
theorem c5_read_line_amended (input : List Char) (buf : Nat → Char) (N : Nat)
    (hN : 0 < N) :
    (0 ≤ (read_line input buf (N : Int)).1
      ∧ (read_line input buf (N : Int)).1 ≤ (N : Int) - 1)
  ∧ (∀ i : Nat, N - 1 ≤ i → (read_line input buf (N : Int)).2.buf i = buf i)
  ∧ ((∀ i, buf i = NUL) →
      (read_line input buf (N : Int)).2.buf
        ((read_line input buf (N : Int)).1).toNat = NUL) := by
  have hpos : ¬((N : Int) ≤ 0) := by omega
  have htn : ((N : Int) - 1).toNat = N - 1 := by omega
  simp only [read_line, read_until, if_neg hpos, htn]
  have hle := readUntilGo_remaining_le is_newline (N - 1) input buf 0
  refine ⟨⟨?_, ?_⟩, ?_, ?_⟩
  · omega
  · omega
  · intro i hi
    exact readUntilGo_frame_high is_newline (N - 1) input buf 0 i (by omega)
  · intro hz
    have hidx : ((N : Int) -
        ((readUntilGo is_newline input buf 0 (N - 1)).remaining : Int) -
        1).toNat =
        0 + ((N - 1) -
        (readUntilGo is_newline input buf 0 (N - 1)).remaining) := by omega
    rw [hidx]
    exact readUntilGo_nul is_newline (N - 1) input buf 0 (fun j _ => hz j)

/-- C5 witness: the amended theorem applied to the stream hi and a zeroed
buffer of capacity 4. -/
theorem c5_read_line_amended_witness :
    (0 ≤ (read_line ['h', 'i'] (fun _ => NUL) ((4 : Nat) : Int)).1
      ∧ (read_line ['h', 'i'] (fun _ => NUL) ((4 : Nat) : Int)).1 ≤
          ((4 : Nat) : Int) - 1)
  ∧ (∀ i : Nat, 4 - 1 ≤ i →
      (read_line ['h', 'i'] (fun _ => NUL) ((4 : Nat) : Int)).2.buf i = NUL)
  ∧ (read_line ['h', 'i'] (fun _ => NUL) ((4 : Nat) : Int)).2.buf
      ((read_line ['h', 'i'] (fun _ => NUL) ((4 : Nat) : Int)).1).toNat =
        NUL := by
  have T := c5_read_line_amended ['h', 'i'] (fun _ => NUL) 4 (by decide)
  exact ⟨T.1, fun i hi => T.2.1 i hi, T.2.2 (fun i => rfl)⟩

/-- Helper: with no end predicate the loop consumes min r (length input)
bytes of the stream. -/
theorem readUntilGo_false_rest :
    ∀ (r : Nat) (input : List Char) (buf : Nat → Char) (pos : Nat),
      (readUntilGo (fun _ => false) input buf pos r).rest = input.drop r := by
  intro r
  induction r with
  | zero => intro input buf pos; cases input <;> simp [readUntilGo]
  | succ r1 ih =>
    intro input buf pos
    cases input with
    | nil => simp [readUntilGo]
    | cons c rest => simpa [readUntilGo] using ih rest _ (pos + 1)

/-- Helper: with no end predicate the final remaining counter is
r - length input. -/
theorem readUntilGo_false_remaining :
    ∀ (r : Nat) (input : List Char) (buf : Nat → Char) (pos : Nat),
      (readUntilGo (fun _ => false) input buf pos r).remaining =
        r - input.length := by
  intro r
  induction r with
  | zero => intro input buf pos; cases input <;> simp [readUntilGo]
  | succ r1 ih =>
    intro input buf pos
    cases input with
    | nil => simp [readUntilGo]
    | cons c rest => simpa [readUntilGo] using ih rest _ (pos + 1)

/-- Helper: with no end predicate the consumed bytes sit verbatim in the
buffer starting at pos. -/
theorem readUntilGo_false_buf :
    ∀ (r : Nat) (input : List Char) (buf : Nat → Char) (pos j : Nat),
      j < min r input.length →
      (readUntilGo (fun _ => false) input buf pos r).buf (pos + j) =
        input.getD j NUL := by
  intro r
  induction r with
  | zero => intro input buf pos j hj; simp at hj
  | succ r1 ih =>
    intro input buf pos j hj
    cases input with
    | nil => simp at hj
    | cons c rest =>
      simp only [readUntilGo, if_neg (by decide : ¬(false = true))]
      cases j with
      | zero =>
        rw [readUntilGo_frame_low (fun _ => false) r1 rest _ (pos + 1) (pos + 0)
          (by omega)]
        simp [updateBuf]
      | succ j1 =>
        have hj1 : j1 < min r1 rest.length := by
          simp only [List.length_cons] at hj
          omega
        have harith : pos + (j1 + 1) = (pos + 1) + j1 := by omega
        rw [harith, ih rest _ (pos + 1) j1 hj1]
        simp

/-- Helper: one send_file iteration reads exactly the next
min (BUFSIZ - 1) (length src) bytes of the source into the buffer. -/
theorem send_file_chunk (src : List Char) :
    (List.range ((BUFSIZ - 1) - (send_file_step src).remaining)).map
        (send_file_step src).buf =
      src.take ((BUFSIZ - 1) - (send_file_step src).remaining) := by
  have hrem : (send_file_step src).remaining = (BUFSIZ - 1) - src.length :=
    readUntilGo_false_remaining (BUFSIZ - 1) src (fun _ => NUL) 0
  have hm : (BUFSIZ - 1) - (send_file_step src).remaining =
      min (BUFSIZ - 1) src.length := by omega
  refine List.ext_getElem ?_ ?_
  · simp only [List.length_map, List.length_range, List.length_take]
    omega
  · intro i h1 h2
    have hi : i < min (BUFSIZ - 1) src.length := by
      simp only [List.length_map, List.length_range] at h1
      omega
    have hilen : i < src.length := by omega
    have hbuf := readUntilGo_false_buf (BUFSIZ - 1) src (fun _ => NUL) 0 i hi
    rw [Nat.zero_add] at hbuf
    simp only [List.getElem_map, List.getElem_range, List.getElem_take,
      send_file_step]
    rw [hbuf, List.getD_eq_getElem src NUL hilen]

/-- Helper: with enough fuel the send_file loop appends exactly the source
to the destination. -/
theorem send_file_fuel_eq :
    ∀ (fuel : Nat) (dest src : List Char), src.length ≤ fuel →
      send_file_fuel fuel dest src = dest ++ src := by
  intro fuel
  induction fuel with
  | zero =>
    intro dest src h
    have hnil : src = [] := List.eq_nil_of_length_eq_zero (by omega)
    subst hnil
    simp [send_file_fuel]
  | succ f ih =>
    intro dest src h
    by_cases hs : src.isEmpty
    · have hnil : src = [] := by cases src <;> simp_all
      subst hnil
      simp [send_file_fuel]
    · have hs1 : 1 ≤ src.length := by cases src <;> simp_all
      have hB : BUFSIZ - 1 = 8191 := by decide
      have hrem : (send_file_step src).remaining = (BUFSIZ - 1) - src.length :=
        readUntilGo_false_remaining (BUFSIZ - 1) src (fun _ => NUL) 0
      have hrest : (send_file_step src).rest = src.drop (BUFSIZ - 1) :=
        readUntilGo_false_rest (BUFSIZ - 1) src (fun _ => NUL) 0
      have hm : (BUFSIZ - 1) - (send_file_step src).remaining =
          min (BUFSIZ - 1) src.length := by omega
      have hstep : send_file_fuel (f + 1) dest src =
          send_file_fuel f
            (dest ++ (List.range ((BUFSIZ - 1) -
              (send_file_step src).remaining)).map (send_file_step src).buf)
            (send_file_step src).rest := by
        simp only [send_file_fuel, hs, Bool.false_eq_true, if_false]
      rw [hstep, send_file_chunk, hrest]
      have hdrop : src.drop (BUFSIZ - 1) =
          src.drop ((BUFSIZ - 1) - (send_file_step src).remaining) := by
        rcases Nat.le_total src.length (BUFSIZ - 1) with hle | hle
        · rw [List.drop_eq_nil_of_le hle, List.drop_eq_nil_of_le (by omega)]
        · congr 1
          omega
      rw [hdrop, ih]
      · rw [List.append_assoc, List.take_append_drop]
      · rw [List.length_drop]
        omega

/-- C6: a successful send_file writes exactly the bytes of the source to
the destination, in order, each byte once (the destination stream ends as
its old contents followed by the source, NUL bytes included); each
iteration reads at most BUFSIZ - 1 bytes. -/
theorem c6_send_file_copies :
    (∀ dest src : List Char, send_file dest src = dest ++ src)
  ∧ (∀ src : List Char,
      (BUFSIZ - 1) - (send_file_step src).remaining ≤ BUFSIZ - 1) :=
  ⟨fun dest src => send_file_fuel_eq src.length dest src (le_refl _),
   fun _ => Nat.sub_le _ _⟩

/-- Helper: count_chars over a split whose left part passes the predicate
throughout and whose right part stops it immediately. -/
theorem count_chars_append (p : Char → Bool) :
    ∀ (xs ys : List Char),
      (∀ x ∈ xs, p x = true ∧ x ≠ NUL) →
      (∀ y, ys.head? = some y → p y = false ∨ y = NUL) →
      count_chars p (xs ++ ys) = xs.length := by
  intro xs
  induction xs with
  | nil =>
    intro ys _ h2
    cases ys with
    | nil => simp [count_chars]
    | cons y ys1 =>
      rcases h2 y rfl with hy | hy
      · simp [count_chars, hy]
      · simp [count_chars, hy]
  | cons x xs1 ih =>
    intro ys h1 h2
    have hx := h1 x (by simp)
    have hrec := ih ys (fun a ha => h1 a (by simp [ha])) h2
    simp [count_chars, hx.1, hx.2, hrec]

/-- Helper: every catalogued command name consists of non-space, non-NUL
characters. -/
theorem name_chars_ok : ∀ c : CmdType,
    ((cmd_get_name c).getD []).all
      (fun ch => is_not_space ch && (ch != NUL)) = true := by decide

/-- Helper: distinct commands have distinct names (when named). -/
theorem cmd_name_inj : ∀ a b : CmdType,
    cmd_get_name a = cmd_get_name b → cmd_get_name a = none ∨ a = b := by
  decide

/-- Helper: the table subscript is in bounds for every enum value except
CMD_INVALID. -/
theorem info_get_some : ∀ c : CmdType, c ≠ CMD_INVALID →
    info_table.get? (tableIdx c) = some (infoOf c) := by decide

/-- Helper: when the first word of msg is nm, msg_is_cmd holds exactly for
a command named nm. -/
theorem msg_is_cmd_iff (msg nm : List Char) (hw : word_length msg = nm.length)
    (hpre : msg.take nm.length = nm) (c : CmdType) :
    msg_is_cmd msg c = true ↔ cmd_get_name c = some nm := by
  cases hn : cmd_get_name c with
  | none => simp [msg_is_cmd, hn]
  | some nm2 =>
    simp only [msg_is_cmd, hn, Bool.and_eq_true, beq_iff_eq, Option.some.injEq]
    constructor
    · rintro ⟨hlen, htake⟩
      have hl2 : nm2.length = nm.length := by rw [← hlen, hw]
      rw [hl2] at htake
      exact htake.symm.trans hpre
    · rintro rfl
      exact ⟨hw, hpre⟩

/-- Helper: the if-else chain of cmd_parse resolves to the unique command
that msg_is_cmd accepts. -/
theorem cmd_parse_type_eq (msg : List Char) (c : CmdType)
    (hch : ∀ c2, msg_is_cmd msg c2 = true ↔ c2 = c)
    (hname : cmd_get_name c ≠ none) :
    cmd_parse_type msg = c := by
  have htr : msg_is_cmd msg c = true := (hch c).mpr rfl
  have hne : ∀ c2, c2 ≠ c → msg_is_cmd msg c2 = false := by
    intro c2 h2
    cases hmc : msg_is_cmd msg c2 with
    | false => rfl
    | true => exact absurd ((hch c2).mp hmc) h2
  cases c
  case CMD_EXIT => simp [cmd_parse_type, htr]
  case CMD_CD => simp [cmd_parse_type, htr, hne CMD_EXIT (by decide)]
  case CMD_RCD =>
    simp [cmd_parse_type, htr, hne CMD_EXIT (by decide),
      hne CMD_CD (by decide)]
  case CMD_LS =>
    simp [cmd_parse_type, htr, hne CMD_EXIT (by decide),
      hne CMD_CD (by decide), hne CMD_RCD (by decide)]
  case CMD_RLS =>
    simp [cmd_parse_type, htr, hne CMD_EXIT (by decide),
      hne CMD_CD (by decide), hne CMD_RCD (by decide),
      hne CMD_LS (by decide)]
  case CMD_GET =>
    simp [cmd_parse_type, htr, hne CMD_EXIT (by decide),
      hne CMD_CD (by decide), hne CMD_RCD (by decide),
      hne CMD_LS (by decide), hne CMD_RLS (by decide)]
  case CMD_SHOW =>
    simp [cmd_parse_type, htr, hne CMD_EXIT (by decide),
      hne CMD_CD (by decide), hne CMD_RCD (by decide),
      hne CMD_LS (by decide), hne CMD_RLS (by decide),
      hne CMD_GET (by decide)]
  case CMD_PUT =>
    simp [cmd_parse_type, htr, hne CMD_EXIT (by decide),
      hne CMD_CD (by decide), hne CMD_RCD (by decide),
      hne CMD_LS (by decide), hne CMD_RLS (by decide),
      hne CMD_GET (by decide), hne CMD_SHOW (by decide)]
  case CMD_DATA => exact absurd (by decide) hname
  case CMD_INVALID => exact absurd (by decide) hname

/-- Helper: parsing a line built as name, whitespace run, argument text
yields the named command with the argument text. -/
theorem cmd_parse_name_ws_arg (c : CmdType) (nm w t : List Char)
    (hn : cmd_get_name c = some nm)
    (hw0 : w ≠ []) (hws : ∀ ch ∈ w, c_isspace ch = true)
    (ht0 : t ≠ []) (hth : c_isspace (t.headD NUL) = false)
    (harg : (infoOf c).has_arg = true) :
    cmd_parse (nm ++ w ++ t) = ⟨c, some t⟩ := by
  have hnm : ∀ ch ∈ nm, is_not_space ch = true ∧ ch ≠ NUL := by
    have hall := name_chars_ok c
    rw [hn] at hall
    simp only [Option.getD_some, List.all_eq_true, Bool.and_eq_true,
      bne_iff_ne] at hall
    exact hall
  have hwsn : ∀ ch ∈ w, c_isspace ch = true ∧ ch ≠ NUL := by
    intro ch hch
    refine ⟨hws ch hch, ?_⟩
    intro heq
    have := hws ch hch
    rw [heq] at this
    exact absurd this (by decide)
  have hth2 : ∀ y, t.head? = some y → c_isspace y = false ∨ y = NUL := by
    cases t with
    | nil => intro y hy; simp at hy
    | cons th tc =>
      intro y hy
      simp only [List.head?_cons, Option.some.injEq] at hy
      subst hy
      exact Or.inl hth
  have hwh : ∀ y, (w ++ t).head? = some y →
      is_not_space y = false ∨ y = NUL := by
    cases w with
    | nil => exact absurd rfl hw0
    | cons wh wc =>
      intro y hy
      simp only [List.cons_append, List.head?_cons, Option.some.injEq] at hy
      subst hy
      have := hws wh (by simp)
      simp [is_not_space, this]
  have hassoc : nm ++ w ++ t = nm ++ (w ++ t) := List.append_assoc nm w t
  have hwlen : word_length (nm ++ w ++ t) = nm.length := by
    rw [hassoc]
    exact count_chars_append is_not_space nm (w ++ t) hnm hwh
  have hdrop1 : (nm ++ w ++ t).drop (word_length (nm ++ w ++ t)) = w ++ t := by
    rw [hwlen, hassoc]
    exact List.drop_left nm (w ++ t)
  have hslen : space_length (w ++ t) = w.length :=
    count_chars_append c_isspace w t hwsn hth2
  have hargstart : arg_start (nm ++ w ++ t) = nm.length + w.length := by
    rw [arg_start, hdrop1, hwlen, hslen]
  have harg_of : arg_of (nm ++ w ++ t) = t := by
    rw [arg_of, hargstart,
      show nm.length + w.length = (nm ++ w).length from
        (List.length_append nm w).symm]
    exact List.drop_left (nm ++ w) t
  have htake : (nm ++ w ++ t).take nm.length = nm := by
    rw [hassoc]
    exact List.take_left nm (w ++ t)
  have hch : ∀ c2, msg_is_cmd (nm ++ w ++ t) c2 = true ↔ c2 = c := by
    intro c2
    rw [msg_is_cmd_iff (nm ++ w ++ t) nm hwlen htake c2]
    constructor
    · intro h2
      rcases cmd_name_inj c2 c (h2.trans hn.symm) with hnone | heq
      · rw [h2] at hnone
        exact absurd hnone (by simp)
      · exact heq
    · rintro rfl
      exact hn
  have hcinv : c ≠ CMD_INVALID := by
    intro heq
    rw [heq] at hn
    simp [cmd_get_name] at hn
  have hty : cmd_parse_type (nm ++ w ++ t) = c := by
    refine cmd_parse_type_eq (nm ++ w ++ t) c hch ?_
    rw [hn]
    simp
  simp only [cmd_parse, cmd_parse_table_index, hty, harg_of,
    info_get_some c hcinv, Option.elim_some, harg]
  rw [if_neg, if_neg ht0]
  intro hcond
  rcases hcond with ⟨_, hb⟩
  apply hb
  cases t with
  | nil => exact absurd rfl ht0
  | cons th tc => simp

/-- C4 (amended): for every argument-requiring command, a line of its name
followed by whitespace and argument text parses to that command with the
argument equal to the trailing text with leading whitespace stripped; and
whenever the parser returns a non-INVALID kind, its argument-required bit
agrees with the presence of an argument (so any disagreement yields
INVALID).  The original first clause fails for commands whose argument
bit is unset, see the counterexample. -/
theorem c4_parse_amended :
    (∀ (c : CmdType) (w t : List Char),
        (infoOf c).has_arg = true → cmd_get_name c ≠ none →
        w ≠ [] → (∀ ch ∈ w, c_isspace ch = true) →
        t ≠ [] → c_isspace (t.headD NUL) = false →
        cmd_parse ((cmd_get_name c).getD [] ++ w ++ t) = ⟨c, some t⟩)
  ∧ (∀ msg : List Char, (cmd_parse msg).type ≠ CMD_INVALID →
        (infoOf (cmd_parse msg).type).has_arg = !(arg_of msg).isEmpty) := by
  constructor
  · intro c w t harg hname hw0 hws ht0 hth
    cases hx : cmd_get_name c with
    | none => exact absurd hx hname
    | some nm =>
      rw [Option.getD_some]
      exact cmd_parse_name_ws_arg c nm w t hx hw0 hws ht0 hth harg
  · intro msg hty
    by_cases hc : cmd_parse_type msg ≠ CMD_INVALID ∧
        (info_table.get? (cmd_parse_table_index msg)).elim false
          CmdInfo.has_arg ≠ !(arg_of msg).isEmpty
    · exfalso
      apply hty
      simp only [cmd_parse, if_pos hc]
    · have hres : cmd_parse msg =
          ⟨cmd_parse_type msg,
            if arg_of msg = [] then none else some (arg_of msg)⟩ := by
        simp only [cmd_parse, if_neg hc]
      rw [hres] at hty ⊢
      simp only at hty ⊢
      rcases not_and_or.mp hc with h1 | h2
      · exact absurd hty (by simpa using h1)
      · have hb := not_not.mp h2
        rw [cmd_parse_table_index, info_get_some (cmd_parse_type msg) hty,
          Option.elim_some] at hb
        exact hb

/-- C4 witness: the amended theorem applied to the line built from get, a
single space, and the argument a, and to the argument-bit agreement of
the parsed line rls. -/
theorem c4_parse_amended_witness :
    cmd_parse ((cmd_get_name CMD_GET).getD [] ++ [' '] ++ ['a']) =
      ⟨CMD_GET, some ['a']⟩
  ∧ (infoOf (cmd_parse ['r', 'l', 's']).type).has_arg =
      !(arg_of ['r', 'l', 's']).isEmpty :=
  ⟨c4_parse_amended.1 CMD_GET [' '] ['a'] (by decide) (by decide) (by decide)
      (by decide) (by decide) (by decide),
   c4_parse_amended.2 ['r', 'l', 's'] (by decide)⟩

end Mftp
